import Mathlib

/-!
The address allocator and the route reconciler of simple-cni-plugin.

A shallow embedding of `pkg/store/store.go`, `pkg/ipam/ipam.go` and of the
`Reconciler` of `cmd/simple-cni-plugin-daemonset/main.go`, followed by the
properties established about them.

Modelling conventions.

* An IPv4 address (`net.IP`) is the natural number its four bytes spell; the
  nil address is `none`. The store file spells an address with
  `net.IP.String` and reads it back with `net.ParseIP`, so an address text is
  identified with the address it denotes; a text `net.ParseIP` rejects (the
  empty `last` field of a fresh document) is `none`.
* A Go `map` is a list of key/value pairs; the order of the list stands for
  the order in which `range` visits the map, which Go leaves unspecified and
  which may differ from one loop to the next. A statement about one call
  holds for every list, hence for every order. The outcome of a call depends
  on the order only when two records carry the same containerID; the
  reachable files (`Reachable`) and the statement on a repeated call let the
  records be reordered between calls.
* The data file is the only part of the file system modelled. It is absent,
  holds text that is not JSON of the document's shape, or holds a document.
  Reads of an existing file and writes succeed; `Lock`/`Unlock` do nothing in
  a sequential run.
* The `for` loop of `AllocateIP` is run with fuel: `none` means the fuel ran
  out before the loop returned.
-/

set_option linter.dupNamespace false

namespace SimpleCNI

/-- An IPv4 address, as the number its four bytes spell (`net.IP`, and the
address texts `store.IP`). -/
abbrev IP := Nat

/-- The errors the modelled code returns. -/
inductive Error where
  /-- The variable `IPOverflowError` of `ipam.go`. -/
  | IPOverflowError
  /-- The error `no avaiable ip` made at the end of `AllocateIP`. -/
  | NoAvailableIP
  /-- The error of `os.ReadFile` on a file that does not exist. -/
  | NotExist
  /-- The error of `json.Unmarshal`. -/
  | InvalidJSON
  /-- The error of `net.ParseCIDR`. -/
  | InvalidCIDR
  /-- The error `failed to find container ... ip` of `CheckIP`. -/
  | NotFound
  /-- The error `node ... ip is nil` of `getNodeInternalIP`. -/
  | NodeIPNil
  deriving DecidableEq, Repr

/-! ## `net` and `containernetworking/plugins/pkg/ip` -/

/-- A network `net.IPNet` as `net.ParseCIDR` builds it: the network address
and a mask of `ones` leading one bits out of 32. -/
structure IPNet where
  IP : IP
  ones : Nat
  deriving DecidableEq, Repr

/-- The method `(*net.IPNet).Contains`: a four-byte address whose bits under the mask
are those of the network address. Comparing under a mask of `ones` leading
ones is comparing what is left after dropping the low `32 - ones` bits. -/
def IPNet.Contains (n : IPNet) (ip : SimpleCNI.IP) : Bool :=
  decide (ip < 2 ^ 32) && (ip >>> (32 - n.ones) == n.IP >>> (32 - n.ones))

/-- The text `a.b.c.d/ones` of a CIDR block, `addr` being the number `a.b.c.d`
spells. A text that is no CIDR block has a field out of range. -/
structure CIDR where
  addr : Nat
  ones : Nat
  deriving DecidableEq, Repr

/-- The function `net.ParseCIDR`: the address and the network it lies in,
whose address is the given one with the low `32 - ones` bits cleared. -/
def ParseCIDR (c : CIDR) : Except Error (IP × IPNet) :=
  if c.addr < 2 ^ 32 ∧ c.ones ≤ 32 then
    .ok (c.addr, { IP := (c.addr >>> (32 - c.ones)) <<< (32 - c.ones), ones := c.ones })
  else
    .error .InvalidCIDR

/-- The function `ip.NextIP` of `containernetworking/plugins`: the address
incremented by one. Past `255.255.255.255` the result has more than four
bytes, which `IPNet.Contains` rejects. -/
def cip.NextIP (ip : IP) : IP := ip + 1

/-! ## `pkg/store/store.go` -/

/-- The record `containerNetInfo`. -/
structure containerNetInfo where
  ID : String
  IFName : String
  deriving DecidableEq, Repr

/-- The document `data`: the records keyed by address, and the
last-allocated pointer (`none` when the text is empty). -/
structure data where
  IPs : List (IP × containerNetInfo)
  Last : Option IP
  deriving DecidableEq, Repr

/-- What is on disk at `Store.dataFile`. -/
inductive File where
  | absent
  | malformed
  | json (d : data)
  deriving DecidableEq, Repr

/-- The handle `Store`: the document in memory and the data file. -/
structure Store where
  data : data
  dataFile : File
  deriving DecidableEq, Repr

/-- The function `NewStore`, given what is on disk at the data file's path:
the handle starts with an empty document. -/
def NewStore (disk : File) : Store :=
  { data := { IPs := [], Last := none }, dataFile := disk }

/-- The method `Store.LoadData`. When the file does not exist it is created
holding `{}`, and the function then returns the error of `os.ReadFile` (the
`err` assigned inside the `if` is a new variable); `s.data` is assigned only on the
last path. -/
def Store.LoadData (s : Store) : Option Error × Store :=
  match s.dataFile with
  | .absent => (some .NotExist, { s with dataFile := .json { IPs := [], Last := none } })
  | .malformed => (some .InvalidJSON, s)
  | .json d => (none, { s with data := d })

/-- The method `Store.GetIPByID`: the key of the first record ranged over that
carries `id`. -/
def Store.GetIPByID (s : Store) (id : String) : Option IP × Bool :=
  match s.data.IPs.find? (fun e => e.2.ID == id) with
  | some e => (some e.1, true)
  | none => (none, false)

/-- The method `Store.Last`. -/
def Store.Last (s : Store) : Option IP := s.data.Last

/-- The method `Store.Contain`: whether the map has the key. -/
def Store.Contain (s : Store) (ip : IP) : Bool :=
  s.data.IPs.any (fun e => e.1 == ip)

/-- The method `Store.Store`: the document in memory is written to the file. -/
def Store.Store (s : SimpleCNI.Store) : Option Error × SimpleCNI.Store :=
  (none, { s with dataFile := .json s.data })

/-- The map assignment `m[k] = v`. -/
def mapSet {α β : Type} [BEq α] (m : List (α × β)) (k : α) (v : β) : List (α × β) :=
  m.filter (fun e => e.1 != k) ++ [(k, v)]

/-- The builtin `delete(m, k)`. -/
def mapDelete {α β : Type} [BEq α] (m : List (α × β)) (k : α) : List (α × β) :=
  m.filter (fun e => e.1 != k)

/-- The map read `m[k]`. -/
def mapGet {α β : Type} [BEq α] (m : List (α × β)) (k : α) : Option β :=
  (m.find? (fun e => e.1 == k)).map Prod.snd

/-- The method `Store.Add`. -/
def Store.Add (s : SimpleCNI.Store) (ip : Option IP) (id ifName : String) :
    Option Error × SimpleCNI.Store :=
  match ip with
  | none => (none, s)
  | some a =>
    Store.Store { s with data :=
      { IPs := mapSet s.data.IPs a { ID := id, IFName := ifName }, Last := some a } }

/-- The method `Store.Del`: the first record ranged over that carries `id` is
deleted and the document written; nothing is written when there is none. -/
def Store.Del (s : SimpleCNI.Store) (id : String) : Option Error × SimpleCNI.Store :=
  match s.data.IPs.find? (fun e => e.2.ID == id) with
  | some e => Store.Store { s with data := { s.data with IPs := mapDelete s.data.IPs e.1 } }
  | none => (none, s)

/-! ## `pkg/ipam/ipam.go` -/

/-- The part of `config.CNIConf` that `NewIPAM` reads. -/
structure CNIConf where
  Subnet : CIDR
  deriving DecidableEq, Repr

/-- The allocator `IPAM`. -/
structure IPAM where
  subnet : IPNet
  gateway : IP
  store : Store
  deriving DecidableEq, Repr

/-- The method `IPAM.NextIP`. -/
def IPAM.NextIP (im : IPAM) (ip : IP) : Option IP × Option Error :=
  let nextIP := cip.NextIP ip
  if !im.subnet.Contains nextIP then (none, some .IPOverflowError)
  else (some nextIP, none)

/-- The function `NewIPAM`. The gateway is computed by `NextIP`, which reads
the subnet only. -/
def NewIPAM (conf : CNIConf) (s : Store) : Except Error IPAM :=
  match ParseCIDR conf.Subnet with
  | .error err => .error err
  | .ok (_, ipNet) =>
    let ipam : IPAM := { subnet := ipNet, gateway := 0, store := s }
    match ipam.NextIP ipam.subnet.IP with
    | (some gw, none) => .ok { ipam with gateway := gw }
    | (_, some err) => .error err
    | (none, none) => .error .IPOverflowError

/-- The `for` loop of `AllocateIP`, from the value `start` has at the top of
an iteration. `last` does not change in the loop. -/
def IPAM.scan (im : IPAM) (id ifName : String) (last : IP) :
    Nat → IP → Option ((Option IP × Option Error) × IPAM)
  | 0, _ => none
  | fuel + 1, start =>
    match im.NextIP start with
    | (some nextIP, none) =>
      if !im.store.Contain nextIP then
        let r := im.store.Add (some nextIP) id ifName
        some ((some nextIP, r.1), { im with store := r.2 })
      else if nextIP = last then
        some ((none, some .NoAvailableIP), im)
      else
        IPAM.scan im id ifName last fuel nextIP
    | (_, err) =>
      if err = some .IPOverflowError ∧ last ≠ im.gateway then
        IPAM.scan im id ifName last fuel im.gateway
      else
        some ((none, err), im)

/-- The method `IPAM.AllocateIP`. -/
def IPAM.AllocateIP (fuel : Nat) (im : IPAM) (id ifName : String) :
    Option ((Option IP × Option Error) × IPAM) :=
  match im.store.LoadData with
  | (some err, s) => some ((none, some err), { im with store := s })
  | (none, s) =>
    let im := { im with store := s }
    match im.store.GetIPByID id with
    | (some ip, _) => some ((some ip, none), im)
    | (none, _) =>
      let last := match im.store.Last with
        | some l => l
        | none => im.gateway
      IPAM.scan im id ifName last fuel last

/-- The method `IPAM.ReleaseIP`. -/
def IPAM.ReleaseIP (im : IPAM) (id : String) : Option Error × IPAM :=
  match im.store.LoadData with
  | (some err, s) => (some err, { im with store := s })
  | (none, s) =>
    let r := s.Del id
    (r.1, { im with store := r.2 })

/-- The method `IPAM.CheckIP`. -/
def IPAM.CheckIP (im : IPAM) (id : String) : (Option IP × Option Error) × IPAM :=
  match im.store.LoadData with
  | (some err, s) => ((none, some err), { im with store := s })
  | (none, s) =>
    match s.GetIPByID id with
    | (ip, true) => ((ip, none), { im with store := s })
    | (_, false) => ((none, some .NotFound), { im with store := s })

/-- The address `a.b.c.d`. -/
def ipv4 (a b c d : Nat) : IP := ((a * 256 + b) * 256 + c) * 256 + d


/-! ## `cmd/simple-cni-plugin-daemonset/main.go` -/

/-- The fields of `netlink.Route` the reconciler sets or compares. A route of
the mirror always has a destination. -/
structure Route where
  Dst : IPNet
  Gw : Option IP
  LinkIndex : Nat
  ILinkIndex : Nat
  deriving DecidableEq, Repr

/-- A route as `netlink.RouteList` lists it; `Dst` is nil for a default route. -/
structure ListedRoute where
  Dst : Option IPNet
  Gw : Option IP
  LinkIndex : Nat
  deriving DecidableEq, Repr

/-- The address types of `corev1.NodeAddress`. -/
inductive NodeAddressType where
  | NodeHostName
  | NodeInternalIP
  | NodeExternalIP
  deriving DecidableEq, Repr

/-- An entry of `node.Status.Addresses`; `Address` is what `net.ParseIP` makes
of the address text. -/
structure NodeAddress where
  AddrType : NodeAddressType
  Address : Option IP
  deriving DecidableEq, Repr

/-- The fields of `corev1.Node` the reconciler reads. -/
structure Node where
  Name : String
  PodCIDR : CIDR
  PodCIDRs : List CIDR
  Addresses : List NodeAddress
  deriving DecidableEq, Repr

/-- A mutating call to the kernel's routing table. -/
inductive RouteCall where
  | RouteAdd (route : Route)
  | RouteDel (route : Route)
  | RouteReplace (route : Route)
  deriving DecidableEq, Repr

/-- The reconciler: the name of this node (`config.nodeName`), the index of
the host link (`hostLink.Attrs().Index`), the mirror `routes` keyed by
destination, and the calls made to the kernel so far, oldest first. Calls to
the kernel succeed. -/
structure Reconciler where
  nodeName : String
  hostLink : Nat
  routes : List (IPNet × Route)
  kernel : List RouteCall
  deriving DecidableEq, Repr

/-- The seeding of the mirror in `NewReconciler`, from the routes listed on the
host link. -/
def seedRoutes (routeList : List ListedRoute) (podCIDR clusterCIDR : IPNet) :
    List (IPNet × Route) :=
  routeList.foldl
    (fun routes route =>
      match route.Dst with
      | some dst =>
        if dst.IP ≠ podCIDR.IP ∧ clusterCIDR.Contains dst.IP = true then
          mapSet routes dst
            { Dst := dst, Gw := route.Gw, LinkIndex := route.LinkIndex, ILinkIndex := 0 }
        else routes
      | none => routes)
    []

/-- The function `getNodeInternalIP`. -/
def getNodeInternalIP (node : Node) : Option IP × Option Error :=
  let ip : Option IP :=
    match node.Addresses.find? (fun addr => addr.AddrType == .NodeInternalIP) with
    | some addr => addr.Address
    | none => none
  match ip with
  | none => (none, some .NodeIPNil)
  | some ip => (some ip, none)

/-- The function `isRouteEqual`. -/
def isRouteEqual (r1 r2 : Route) : Bool :=
  r1.Dst.IP == r2.Dst.IP && r1.Gw == r2.Gw && r1.Dst.ones == r2.Dst.ones &&
    r1.LinkIndex == r2.LinkIndex

/-- The method `Reconciler.addRoute`. -/
def Reconciler.addRoute (r : Reconciler) (route : Route) : Option Error × Reconciler :=
  (none, { r with kernel := r.kernel ++ [.RouteAdd route],
                  routes := mapSet r.routes route.Dst route })

/-- The method `Reconciler.delRoute`. -/
def Reconciler.delRoute (r : Reconciler) (route : Route) : Option Error × Reconciler :=
  (none, { r with kernel := r.kernel ++ [.RouteDel route],
                  routes := mapDelete r.routes route.Dst })

/-- The method `Reconciler.ReplaceRoute`. -/
def Reconciler.ReplaceRoute (r : Reconciler) (route : Route) : Option Error × Reconciler :=
  (none, { r with kernel := r.kernel ++ [.RouteReplace route],
                  routes := mapSet r.routes route.Dst route })

/-- The first loop of `Reconcile`, over the nodes listed: `routes` is the
local map of wanted routes. -/
def Reconciler.reconcileNodes :
    List Node → Reconciler → List (IPNet × Route) →
      Option Error × Reconciler × List (IPNet × Route)
  | [], r, routes => (none, r, routes)
  | node :: rest, r, routes =>
    if node.Name = r.nodeName then Reconciler.reconcileNodes rest r routes
    else if node.PodCIDRs.length = 0 then Reconciler.reconcileNodes rest r routes
    else
      match ParseCIDR node.PodCIDR with
      | .error err => (some err, r, routes)
      | .ok (_, podCIDR) =>
        match getNodeInternalIP node with
        | (_, some _) => Reconciler.reconcileNodes rest r routes
        | (nodeIP, none) =>
          let route : Route :=
            { Dst := podCIDR, Gw := nodeIP, LinkIndex := 0, ILinkIndex := r.hostLink }
          let routes := mapSet routes podCIDR route
          match mapGet r.routes podCIDR with
          | some currentRoute =>
            if isRouteEqual route currentRoute then Reconciler.reconcileNodes rest r routes
            else
              match r.ReplaceRoute currentRoute with
              | (some err, r') => (some err, r', routes)
              | (none, r') => Reconciler.reconcileNodes rest r' routes
          | none =>
            match r.addRoute route with
            | (some err, r') => (some err, r', routes)
            | (none, r') => Reconciler.reconcileNodes rest r' routes

/-- The second loop of `Reconcile`, over the entries the mirror had when the
loop began. -/
def Reconciler.deleteStale (routes : List (IPNet × Route)) :
    List (IPNet × Route) → Reconciler → Option Error × Reconciler
  | [], r => (none, r)
  | (podCIDR, route) :: rest, r =>
    if (mapGet routes podCIDR).isNone then
      match r.delRoute route with
      | (some err, r') => (some err, r')
      | (none, r') => Reconciler.deleteStale routes rest r'
    else Reconciler.deleteStale routes rest r

/-- The method `Reconciler.Reconcile`, given the nodes `r.client.List` returned. -/
def Reconciler.Reconcile (r : Reconciler) (nodes : List Node) : Option Error × Reconciler :=
  match Reconciler.reconcileNodes nodes r [] with
  | (some err, r', _) => (some err, r')
  | (none, r', routes) => Reconciler.deleteStale routes r'.routes r'

/-- The wanted routes the first loop of `Reconcile` computes. -/
def Reconciler.wanted (r : Reconciler) (nodes : List Node) : List (IPNet × Route) :=
  (Reconciler.reconcileNodes nodes r []).2.2

/-- The pod subnet `10.244.2.0/24` of a peer node. -/
def peerCIDR : CIDR := { addr := ipv4 10 244 2 0, ones := 24 }

/-- This node, `node1`, with pod subnet `10.244.1.0/24`. -/
def selfNode : Node :=
  { Name := "node1", PodCIDR := { addr := ipv4 10 244 1 0, ones := 24 },
    PodCIDRs := [{ addr := ipv4 10 244 1 0, ones := 24 }],
    Addresses := [{ AddrType := .NodeInternalIP, Address := some (ipv4 192 168 0 1) }] }

/-- The peer `node2`, with pod subnet `10.244.2.0/24` and internal IP `ip`. -/
def peerNode (ip : IP) : Node :=
  { Name := "node2", PodCIDR := peerCIDR, PodCIDRs := [peerCIDR],
    Addresses := [{ AddrType := .NodeInternalIP, Address := some ip }] }

/-- The route to the pod subnet of `node2` through `gw`, as `Reconcile` builds it
on a host link of index 2. -/
def peerRoute (gw : IP) : Route :=
  { Dst := { IP := ipv4 10 244 2 0, ones := 24 }, Gw := some gw, LinkIndex := 0,
    ILinkIndex := 2 }

/-- The route to the pod subnet of `node2` through `192.168.0.2`, as the
kernel lists it on the host link of index 2. -/
def listedPeerRoute : Route :=
  { Dst := { IP := ipv4 10 244 2 0, ones := 24 }, Gw := some (ipv4 192 168 0 2),
    LinkIndex := 2, ILinkIndex := 0 }

/-- The reconciler of `node1` on a host link of index 2, with mirror `routes`. -/
def sampleReconciler (routes : List (IPNet × Route)) : Reconciler :=
  { nodeName := "node1", hostLink := 2, routes := routes, kernel := [] }

/-- The mirror `NewReconciler` seeds on `node1`, the kernel listing on the host
link, of index 2, the route to `10.244.2.0/24` through `192.168.0.2`. -/
def seededRoutes : List (IPNet × Route) :=
  seedRoutes
    [{ Dst := none, Gw := some (ipv4 192 168 0 254), LinkIndex := 2 },
     { Dst := some { IP := ipv4 10 244 2 0, ones := 24 }, Gw := some (ipv4 192 168 0 2),
       LinkIndex := 2 }]
    { IP := ipv4 10 244 1 0, ones := 24 } { IP := ipv4 10 244 0 0, ones := 16 }

/-! ## Sample data and reachable files -/

/-- The sample subnet `10.244.1.0/24` of the comments of `ipam.go`. -/
def sampleConf : CNIConf := { Subnet := { addr := ipv4 10 244 1 0, ones := 24 } }

/-- The allocator `NewIPAM` builds for `sampleConf` over a data file holding `d`. -/
def sampleIPAM (d : data) : IPAM :=
  { subnet := { IP := ipv4 10 244 1 0, ones := 24 }, gateway := ipv4 10 244 1 1,
    store := NewStore (.json d) }

/-- The allocator `NewIPAM` builds for `sampleConf` on a node whose data file was
never written. -/
def freshIPAM : IPAM :=
  { subnet := { IP := ipv4 10 244 1 0, ones := 24 }, gateway := ipv4 10 244 1 1,
    store := NewStore .absent }

/-- The allocator once its store has loaded and holds `d`, in memory and on disk. -/
def loaded (im : IPAM) (d : data) : IPAM :=
  { im with store := { data := d, dataFile := .json d } }

/-- A document: `c1` holds `10.244.1.2`. -/
def sampleDoc1 : data :=
  { IPs := [(ipv4 10 244 1 2, { ID := "c1", IFName := "eth0" })], Last := some (ipv4 10 244 1 2) }

/-- A document: `c1` holds `10.244.1.2` and `c2` holds `10.244.1.3`. -/
def sampleDoc2 : data :=
  { IPs := [(ipv4 10 244 1 2, { ID := "c1", IFName := "eth0" }),
      (ipv4 10 244 1 3, { ID := "c2", IFName := "eth0" })],
    Last := some (ipv4 10 244 1 3) }

/-- The subnet `10.244.1.0/30`: network address, gateway, and the two
addresses `10.244.1.2` and `10.244.1.3`. -/
def smallConf : CNIConf := { Subnet := { addr := ipv4 10 244 1 0, ones := 30 } }

/-- The allocator `NewIPAM` builds for `smallConf` over a data file holding `d`. -/
def smallIPAM (d : data) : IPAM :=
  { subnet := { IP := ipv4 10 244 1 0, ones := 30 }, gateway := ipv4 10 244 1 1,
    store := NewStore (.json d) }

/-- Both addresses of `10.244.1.0/30` above the gateway are taken, and the
last-allocated pointer is `last`. -/
def fullDoc (last : Option IP) : data :=
  { IPs := [(ipv4 10 244 1 2, { ID := "c1", IFName := "eth0" }),
      (ipv4 10 244 1 3, { ID := "c2", IFName := "eth0" })],
    Last := last }

/-- A document: `c2` holds `10.244.1.3`, left after `c1` released `10.244.1.2`. -/
def sampleDoc3 : data :=
  { IPs := [(ipv4 10 244 1 3, { ID := "c2", IFName := "eth0" })],
    Last := some (ipv4 10 244 1 3) }

/-- A document: `c2` holds `10.244.1.3` and `c3` holds `10.244.1.4`. -/
def sampleDoc4 : data :=
  { IPs := [(ipv4 10 244 1 3, { ID := "c2", IFName := "eth0" }),
      (ipv4 10 244 1 4, { ID := "c3", IFName := "eth0" })],
    Last := some (ipv4 10 244 1 4) }

/-- The data files reachable from a document with no records and an empty
last-allocated pointer. Each call is made as `cmdAdd` and `cmdDel` make it,
through a fresh handle over the file; between calls the records may be
reordered, the order in which a map is ranged over being unspecified. -/
inductive Reachable (conf : CNIConf) : File → Prop where
  | init : Reachable conf (.json { IPs := [], Last := none })
  | allocate {disk : File} {im im' : IPAM} {fuel : Nat} {id ifName : String}
      {r : Option IP × Option Error} :
      Reachable conf disk → NewIPAM conf (NewStore disk) = .ok im →
      im.AllocateIP fuel id ifName = some (r, im') → Reachable conf im'.store.dataFile
  | release {disk : File} {im im' : IPAM} {id : String} {r : Option Error} :
      Reachable conf disk → NewIPAM conf (NewStore disk) = .ok im →
      im.ReleaseIP id = (r, im') → Reachable conf im'.store.dataFile
  | reorder {d d' : data} :
      Reachable conf (.json d) → List.Perm d'.IPs d.IPs → d'.Last = d.Last →
      Reachable conf (.json d')

/-- The invariant of the reachable files: a document whose keys and pointer
are addresses of the subnet above the gateway. -/
def GoodFile (net : IPNet) (f : File) : Prop :=
  ∃ d, f = .json d ∧ (∀ e ∈ d.IPs, net.Contains e.1 = true ∧ net.IP + 1 < e.1) ∧
    ∀ l, d.Last = some l → net.Contains l = true ∧ net.IP + 1 < l

/-- A document over `10.244.1.0/30`: `10.244.1.3` is held by `c2` and is the
last-allocated pointer, `10.244.1.2` has been released. -/
def wrapDoc : data :=
  { IPs := [(ipv4 10 244 1 3, { ID := "c2", IFName := "eth0" })],
    Last := some (ipv4 10 244 1 3) }

/-- A document over `10.244.1.0/30` with both addresses above the gateway
taken and the pointer on `10.244.0.5`, an address of another subnet. -/
def staleDoc : data := fullDoc (some (ipv4 10 244 0 5))

/-- The subnet `10.244.1.0/31`: the network address and the gateway, and no
address above the gateway. -/
def pairConf : CNIConf := { Subnet := { addr := ipv4 10 244 1 0, ones := 31 } }

/-- The allocator `NewIPAM` builds for `pairConf` over a data file holding the
empty document. -/
def pairIPAM : IPAM :=
  { subnet := { IP := ipv4 10 244 1 0, ones := 31 }, gateway := ipv4 10 244 1 1,
    store := NewStore (.json { IPs := [], Last := none }) }

/-- No two records of the document carry the same containerID. -/
def UniqueIDs (d : data) : Prop := (d.IPs.map (fun e => e.2.ID)).Nodup

/-- The address `a` is the first one after `lo` that has no record in `d`:
every address strictly between them has one. -/
def FirstFreeAfter (d : data) (lo a : IP) : Prop :=
  lo < a ∧ (∀ e ∈ d.IPs, e.1 ≠ a) ∧ ∀ x, lo < x → x < a → ∃ e ∈ d.IPs, e.1 = x

/-! ## Lemmas on the scan of `AllocateIP` -/

theorem NextIP_eq (im : IPAM) (ip : IP) :
    im.NextIP ip = if im.subnet.Contains (ip + 1) then (some (ip + 1), none)
      else (none, some .IPOverflowError) := by
  unfold IPAM.NextIP cip.NextIP
  by_cases h : im.subnet.Contains (ip + 1) = true <;> simp [h]

theorem scan_succ (im : IPAM) (id ifName : String) (last : IP) (fuel : Nat) (start : IP) :
    im.scan id ifName last (fuel + 1) start =
      if im.subnet.Contains (start + 1) then
        if im.store.Contain (start + 1) then
          if start + 1 = last then some ((none, some .NoAvailableIP), im)
          else im.scan id ifName last fuel (start + 1)
        else
          some ((some (start + 1), (im.store.Add (some (start + 1)) id ifName).1),
            { im with store := (im.store.Add (some (start + 1)) id ifName).2 })
      else if last ≠ im.gateway then im.scan id ifName last fuel im.gateway
      else some ((none, some .IPOverflowError), im) := by
  rw [IPAM.scan, NextIP_eq]
  by_cases h : im.subnet.Contains (start + 1) = true
  · by_cases h2 : im.store.Contain (start + 1) = true <;> simp [h, h2]
  · by_cases h2 : last = im.gateway <;> simp [h, h2]

/-- What a scan that returns has done: either no address is returned and the
allocator is as it was, or the address returned is inside the subnet, had no
record, and was added by `Store.Add`. -/
theorem scan_result (im : IPAM) (id ifName : String) (last : IP) (fuel : Nat) (start : IP)
    (r : Option IP × Option Error) (im' : IPAM)
    (h : im.scan id ifName last fuel start = some (r, im')) :
    (r.1 = none ∧ r.2 ≠ none ∧ im' = im) ∨
      ∃ a, r = (some a, none) ∧ im.store.Contain a = false ∧ im.subnet.Contains a = true ∧
        im' = { im with store := (im.store.Add (some a) id ifName).2 } ∧
        (im.gateway ≤ start → im.gateway < a) := by
  induction fuel generalizing start with
  | zero => simp [IPAM.scan] at h
  | succ n ih =>
    rw [scan_succ] at h
    split_ifs at h with h1 h2 h3 h4
    · simp only [Option.some.injEq, Prod.mk.injEq] at h
      obtain ⟨hr, him⟩ := h
      subst hr
      exact Or.inl ⟨rfl, by simp, him.symm⟩
    · rcases ih (start + 1) h with p | ⟨a, p1, p2, p3, p4, p5⟩
      · exact Or.inl p
      · exact Or.inr ⟨a, p1, p2, p3, p4, fun hg => p5 (Nat.le_succ_of_le hg)⟩
    · simp only [Option.some.injEq, Prod.mk.injEq] at h
      obtain ⟨hr, him⟩ := h
      subst hr
      exact Or.inr ⟨start + 1, rfl, by simpa using h2, h1, him.symm,
        fun hg => Nat.lt_succ_of_le hg⟩
    · rcases ih im.gateway h with p | ⟨a, p1, p2, p3, p4, p5⟩
      · exact Or.inl p
      · exact Or.inr ⟨a, p1, p2, p3, p4, fun _ => p5 (le_refl _)⟩
    · simp only [Option.some.injEq, Prod.mk.injEq] at h
      obtain ⟨hr, him⟩ := h
      subst hr
      exact Or.inl ⟨rfl, by simp, him.symm⟩

/-- What a scan that hands out an address has done. -/
theorem scan_some (im : IPAM) (id ifName : String) (last : IP) (fuel : Nat) (start : IP)
    (a : IP) (e : Option Error) (im' : IPAM)
    (h : im.scan id ifName last fuel start = some ((some a, e), im')) :
    im.store.Contain a = false ∧ im.subnet.Contains a = true ∧ e = none ∧
      im' = { im with store := (im.store.Add (some a) id ifName).2 } ∧
      (im.gateway ≤ start → im.gateway < a) := by
  rcases scan_result _ _ _ _ _ _ _ _ h with p | ⟨b, p1, p2, p3, p4, p5⟩
  · simp at p
  · simp only [Prod.mk.injEq, Option.some.injEq] at p1
    obtain ⟨rfl, rfl⟩ := p1
    exact ⟨p2, p3, rfl, p4, p5⟩

theorem Contains_iff (n : IPNet) (ip : IP) :
    n.Contains ip = true ↔
      ip < 2 ^ 32 ∧ ip / 2 ^ (32 - n.ones) = n.IP / 2 ^ (32 - n.ones) := by
  simp [IPNet.Contains, Nat.shiftRight_eq_div_pow]

theorem find_none_of_no_record (l : List (IP × containerNetInfo)) (id : String)
    (hid : ∀ e ∈ l, e.2.ID ≠ id) : l.find? (fun e => e.2.ID == id) = none := by
  rw [List.find?_eq_none]
  intro e he
  simpa using hid e he

theorem mapSet_of_not_Contain {β : Type} (m : List (IP × β)) (k : IP) (v : β)
    (h : m.any (fun e => e.1 == k) = false) : mapSet m k v = m ++ [(k, v)] := by
  unfold mapSet
  congr 1
  rw [List.filter_eq_self]
  intro e he
  have := (List.any_eq_false.mp h) e he
  simpa using this

/-! ## The allocator -/

/-- C1: when `AllocateIP` succeeds with address `a` for a containerID that has no
record in the loaded document, `a` had no record before the call, and the
document written by the call holds the old records and the one new record
`a -> (containerID, ifName)`, nothing else: no binding is overwritten. -/
theorem AllocateIP_adds_one_fresh_record (fuel : Nat) (im im' : IPAM) (d : data)
    (id ifName : String) (a : IP)
    (hload : im.store.dataFile = .json d)
    (hid : ∀ e ∈ d.IPs, e.2.ID ≠ id)
    (h : im.AllocateIP fuel id ifName = some ((some a, none), im')) :
    (∀ e ∈ d.IPs, e.1 ≠ a) ∧
      ∃ d', im'.store.dataFile = .json d' ∧ im'.store.data = d' ∧
        List.Perm d'.IPs ((a, { ID := id, IFName := ifName }) :: d.IPs) ∧
        (∀ e ∈ d.IPs, e ∈ d'.IPs) ∧
        mapGet d'.IPs a = some { ID := id, IFName := ifName } := by
  unfold IPAM.AllocateIP at h
  simp only [Store.LoadData, hload, Store.GetIPByID, find_none_of_no_record d.IPs id hid] at h
  obtain ⟨p1, -, -, p4, -⟩ := scan_some _ _ _ _ _ _ _ _ _ h
  simp only [Store.Contain] at p1
  have hnot : ∀ e ∈ d.IPs, e.1 ≠ a := by
    intro e he
    have := (List.any_eq_false.mp p1) e he
    simpa using this
  refine ⟨hnot, ?_⟩
  subst p4
  simp only [Store.Add, Store.Store, mapSet_of_not_Contain _ _ _ p1]
  refine ⟨_, rfl, rfl, ?_, ?_, ?_⟩
  · simp
  · intro e he
    simp [he]
  · unfold mapGet
    rw [List.find?_append]
    have : List.find? (fun e => e.1 == a) d.IPs = none := by
      rw [List.find?_eq_none]
      intro e he
      simpa using hnot e he
    simp [this]

/-- An instance of `AllocateIP_adds_one_fresh_record`: with `10.244.1.2` held by
`c1`, an allocation for `c2` yields `10.244.1.3`. -/
theorem AllocateIP_adds_one_fresh_record_witness :
    (sampleIPAM sampleDoc1).AllocateIP 1 "c2" "eth0" =
        some ((some (ipv4 10 244 1 3), none), loaded (sampleIPAM sampleDoc1) sampleDoc2) ∧
      (∀ e ∈ sampleDoc1.IPs, e.1 ≠ ipv4 10 244 1 3) ∧
      ∃ d', (loaded (sampleIPAM sampleDoc1) sampleDoc2).store.dataFile = .json d' ∧
        (loaded (sampleIPAM sampleDoc1) sampleDoc2).store.data = d' ∧
        List.Perm d'.IPs ((ipv4 10 244 1 3, { ID := "c2", IFName := "eth0" }) ::
          sampleDoc1.IPs) ∧
        (∀ e ∈ sampleDoc1.IPs, e ∈ d'.IPs) ∧
        mapGet d'.IPs (ipv4 10 244 1 3) = some { ID := "c2", IFName := "eth0" } :=
  ⟨by decide,
    AllocateIP_adds_one_fresh_record 1 (sampleIPAM sampleDoc1)
      (loaded (sampleIPAM sampleDoc1) sampleDoc2) sampleDoc1 "c2" "eth0" (ipv4 10 244 1 3)
      rfl (by decide) (by decide)⟩


theorem NewIPAM_ok (conf : CNIConf) (s : Store) (im : IPAM) (h : NewIPAM conf s = .ok im) :
    im.store = s ∧ im.gateway = im.subnet.IP + 1 ∧ im.subnet.Contains im.gateway = true ∧
      ParseCIDR conf.Subnet = .ok (conf.Subnet.addr, im.subnet) := by
  unfold NewIPAM at h
  split at h
  · simp at h
  · rename_i a ipNet hp
    have ha : a = conf.Subnet.addr := by
      unfold ParseCIDR at hp
      split_ifs at hp
      simp only [Except.ok.injEq, Prod.mk.injEq] at hp
      exact hp.1.symm
    subst ha
    simp only [NextIP_eq] at h
    split_ifs at h with hc
    · simp only [Except.ok.injEq] at h
      subst h
      exact ⟨rfl, rfl, hc, hp⟩


theorem AllocateIP_good (fuel : Nat) (im im' : IPAM) (id ifName : String)
    (r : Option IP × Option Error) (hgw : im.gateway = im.subnet.IP + 1)
    (hg : GoodFile im.subnet im.store.dataFile)
    (h : im.AllocateIP fuel id ifName = some (r, im')) :
    GoodFile im.subnet im'.store.dataFile ∧
      ∀ a, r.1 = some a → im.subnet.Contains a = true ∧ im.subnet.IP + 1 < a := by
  obtain ⟨d, hd, hkeys, hlast⟩ := hg
  unfold IPAM.AllocateIP at h
  simp only [Store.LoadData, hd, Store.GetIPByID] at h
  cases hf : d.IPs.find? (fun e => e.2.ID == id) with
  | some e =>
    simp only [hf, Option.some.injEq, Prod.mk.injEq] at h
    obtain ⟨hr, him⟩ := h
    subst hr him
    refine ⟨⟨d, rfl, hkeys, hlast⟩, ?_⟩
    intro a ha
    simp only [Option.some.injEq] at ha
    subst ha
    exact hkeys e (List.mem_of_find?_eq_some hf)
  | none =>
    simp only [hf] at h
    have hstart : im.gateway ≤ (match d.Last with | some l => l | none => im.gateway) := by
      cases hl : d.Last with
      | none => exact le_refl _
      | some l =>
        have := (hlast l hl).2
        rw [hgw]
        exact Nat.le_of_lt this
    rcases scan_result _ _ _ _ _ _ _ _ h with ⟨p1, -, p3⟩ | ⟨a, p1, p2, p3, p4, p5⟩
    · subst p3
      refine ⟨⟨d, rfl, hkeys, hlast⟩, ?_⟩
      intro a ha
      simp [p1] at ha
    · have hga : im.subnet.IP + 1 < a := by
        have := p5 hstart
        simpa [hgw] using this
      subst p1 p4
      refine ⟨⟨_, rfl, ?_, ?_⟩, ?_⟩
      · intro e he
        simp only [mapSet, List.mem_append, List.mem_filter, List.mem_singleton] at he
        rcases he with ⟨he, -⟩ | he
        · exact hkeys e he
        · subst he
          exact ⟨p3, hga⟩
      · intro l hl
        simp only [Option.some.injEq] at hl
        subst hl
        exact ⟨p3, hga⟩
      · intro b hb
        simp only [Option.some.injEq] at hb
        subst hb
        exact ⟨p3, hga⟩

theorem ReleaseIP_good (im im' : IPAM) (id : String) (r : Option Error)
    (hg : GoodFile im.subnet im.store.dataFile) (h : im.ReleaseIP id = (r, im')) :
    GoodFile im.subnet im'.store.dataFile := by
  obtain ⟨d, hd, hkeys, hlast⟩ := hg
  unfold IPAM.ReleaseIP at h
  simp only [Store.LoadData, hd, Store.Del] at h
  cases hf : d.IPs.find? (fun e => e.2.ID == id) with
  | some e =>
    simp only [hf, Prod.mk.injEq] at h
    obtain ⟨-, him⟩ := h
    subst him
    refine ⟨_, rfl, ?_, hlast⟩
    intro e' he'
    simp only [mapDelete, List.mem_filter] at he'
    exact hkeys e' he'.1
  | none =>
    simp only [hf, Prod.mk.injEq] at h
    obtain ⟨-, him⟩ := h
    subst him
    exact ⟨d, rfl, hkeys, hlast⟩

theorem Reachable_good (conf : CNIConf) (net : IPNet) (disk : File)
    (hnet : ParseCIDR conf.Subnet = .ok (conf.Subnet.addr, net))
    (hr : Reachable conf disk) : GoodFile net disk := by
  induction hr with
  | init => exact ⟨_, rfl, by simp, by simp⟩
  | @allocate disk im im' fuel id ifName r _ hnew h ih =>
    obtain ⟨hs, hgw, -, hp⟩ := NewIPAM_ok _ _ _ hnew
    have hsub : im.subnet = net := by
      rw [hp] at hnet
      simp only [Except.ok.injEq, Prod.mk.injEq, true_and] at hnet
      exact hnet
    have hg : GoodFile im.subnet im.store.dataFile := by
      rw [hsub, hs]
      exact ih
    have := (AllocateIP_good _ _ _ _ _ _ hgw hg h).1
    rwa [hsub] at this
  | @release disk im im' id r _ hnew h ih =>
    obtain ⟨hs, hgw, -, hp⟩ := NewIPAM_ok _ _ _ hnew
    have hsub : im.subnet = net := by
      rw [hp] at hnet
      simp only [Except.ok.injEq, Prod.mk.injEq, true_and] at hnet
      exact hnet
    have hg : GoodFile im.subnet im.store.dataFile := by
      rw [hsub, hs]
      exact ih
    have := ReleaseIP_good _ _ _ _ hg h
    rwa [hsub] at this
  | @reorder d d' _ hperm hlast ih =>
    obtain ⟨d0, hd0, hkeys, hl⟩ := ih
    simp only [File.json.injEq] at hd0
    subst hd0
    refine ⟨d', rfl, ?_, ?_⟩
    · intro e he
      exact hkeys e (hperm.mem_iff.mp he)
    · intro l h
      exact hl l (hlast ▸ h)

/-- C2: for every subnet `NewIPAM` accepts and every data file reached from the
empty document by `AllocateIP` and `ReleaseIP` calls, an address returned by
`AllocateIP` lies inside the subnet and is neither the network address nor
the gateway, which is the network address plus one. -/
theorem AllocateIP_returns_usable_address (conf : CNIConf) (disk : File) (im im' : IPAM)
    (fuel : Nat) (id ifName : String) (a : IP) (e : Option Error)
    (hr : Reachable conf disk)
    (hnew : NewIPAM conf (NewStore disk) = .ok im)
    (h : im.AllocateIP fuel id ifName = some ((some a, e), im')) :
    im.subnet.Contains a = true ∧ a ≠ im.subnet.IP ∧ a ≠ im.gateway ∧
      im.gateway = im.subnet.IP + 1 := by
  obtain ⟨hs, hgw, -, hp⟩ := NewIPAM_ok _ _ _ hnew
  have hg : GoodFile im.subnet im.store.dataFile := by
    rw [hs]
    exact Reachable_good conf im.subnet disk hp hr
  have := (AllocateIP_good _ _ _ _ _ _ hgw hg h).2 a rfl
  refine ⟨this.1, ?_, ?_, hgw⟩
  · exact Nat.ne_of_gt (Nat.lt_of_succ_lt this.2)
  · rw [hgw]
    exact Nat.ne_of_gt this.2

/-- An instance of `AllocateIP_returns_usable_address`: the first allocation in
`10.244.1.0/24` returns `10.244.1.2`. -/
theorem AllocateIP_returns_usable_address_witness :
    NewIPAM sampleConf (NewStore (.json { IPs := [], Last := none })) =
        .ok (sampleIPAM { IPs := [], Last := none }) ∧
      (sampleIPAM { IPs := [], Last := none }).AllocateIP 1 "c1" "eth0" =
        some ((some (ipv4 10 244 1 2), none),
          loaded (sampleIPAM { IPs := [], Last := none }) sampleDoc1) ∧
      (sampleIPAM { IPs := [], Last := none }).subnet.Contains (ipv4 10 244 1 2) = true ∧
      ipv4 10 244 1 2 ≠ (sampleIPAM { IPs := [], Last := none }).subnet.IP ∧
      ipv4 10 244 1 2 ≠ (sampleIPAM { IPs := [], Last := none }).gateway ∧
      (sampleIPAM { IPs := [], Last := none }).gateway =
        (sampleIPAM { IPs := [], Last := none }).subnet.IP + 1 :=
  ⟨rfl, by decide,
    AllocateIP_returns_usable_address sampleConf (.json { IPs := [], Last := none })
      (sampleIPAM { IPs := [], Last := none })
      (loaded (sampleIPAM { IPs := [], Last := none }) sampleDoc1) 1 "c1" "eth0"
      (ipv4 10 244 1 2) none Reachable.init rfl (by decide)⟩


/-- When at most one record of the loaded document carries the containerID and
`AllocateIP` succeeds with address `a`, the next `AllocateIP` for that
containerID, with any interface name, any fuel and the records ranged over
in any order, returns `a` and leaves the document as the first call left it. -/
theorem AllocateIP_repeat_of_unique (fuel fuel' : Nat) (im im1 im2 : IPAM) (d d1 d2 : data)
    (id ifName ifName' : String) (a : IP)
    (hload : im.store.dataFile = .json d)
    (huniq : ∀ e ∈ d.IPs, ∀ e' ∈ d.IPs, e.2.ID = id → e'.2.ID = id → e = e')
    (h : im.AllocateIP fuel id ifName = some ((some a, none), im1))
    (h1 : im1.store.dataFile = .json d1)
    (h2 : im2.store.dataFile = .json d2)
    (hperm : List.Perm d2.IPs d1.IPs) (hlast : d2.Last = d1.Last) :
    im2.AllocateIP fuel' id ifName' = some ((some a, none), loaded im2 d2) := by
  have key : ∃ e ∈ d1.IPs, e.2.ID = id ∧ e.1 = a ∧
      ∀ e' ∈ d1.IPs, e'.2.ID = id → e' = e := by
    unfold IPAM.AllocateIP at h
    simp only [Store.LoadData, hload, Store.GetIPByID] at h
    cases hf : d.IPs.find? (fun e => e.2.ID == id) with
    | some e =>
      simp only [hf, Option.some.injEq, Prod.mk.injEq] at h
      obtain ⟨⟨ha, -⟩, him⟩ := h
      subst him
      simp only [File.json.injEq] at h1
      subst h1
      have hmem := List.mem_of_find?_eq_some hf
      have hid : e.2.ID = id := by simpa using List.find?_some hf
      exact ⟨e, hmem, hid, ha, fun e' he' hid' => huniq e' he' e hmem hid' hid⟩
    | none =>
      simp only [hf] at h
      obtain ⟨p1, -, -, p4, -⟩ := scan_some _ _ _ _ _ _ _ _ _ h
      subst p4
      simp only [Store.Contain] at p1
      simp only [Store.Add, Store.Store, mapSet_of_not_Contain _ _ _ p1, File.json.injEq] at h1
      subst h1
      refine ⟨(a, ⟨id, ifName⟩), by simp, rfl, rfl, ?_⟩
      intro e' he' hid'
      simp only [List.mem_append, List.mem_singleton] at he'
      rcases he' with he' | he'
      · have := List.find?_eq_none.mp hf e' he'
        simp [hid'] at this
      · exact he'
  obtain ⟨e, he, hid, ha, hu⟩ := key
  unfold IPAM.AllocateIP
  simp only [Store.LoadData, h2, Store.GetIPByID]
  cases hf : d2.IPs.find? (fun e => e.2.ID == id) with
  | some e' =>
    have hmem := hperm.mem_iff.mp (List.mem_of_find?_eq_some hf)
    have hid' : e'.2.ID = id := by simpa using List.find?_some hf
    have := hu e' hmem hid'
    subst this
    simp [ha, loaded]
  | none =>
    have := List.find?_eq_none.mp hf e (hperm.mem_iff.mpr he)
    simp [hid] at this

/-! ## Exhaustion -/

theorem Contains_convex (n : IPNet) (a b x : IP) (ha : n.Contains a = true)
    (hb : n.Contains b = true) (hax : a ≤ x) (hxb : x ≤ b) : n.Contains x = true := by
  rw [Contains_iff] at ha hb ⊢
  refine ⟨lt_of_le_of_lt hxb hb.1, ?_⟩
  have h1 : a / 2 ^ (32 - n.ones) ≤ x / 2 ^ (32 - n.ones) := Nat.div_le_div_right hax
  have h2 : x / 2 ^ (32 - n.ones) ≤ b / 2 ^ (32 - n.ones) := Nat.div_le_div_right hxb
  rw [ha.2] at h1
  rw [hb.2] at h2
  exact le_antisymm h2 h1

theorem Contains_dist (n : IPNet) (a b : IP) (ha : n.Contains a = true)
    (hb : n.Contains b = true) : b < a + 2 ^ (32 - n.ones) := by
  rw [Contains_iff] at ha hb
  have hp : 0 < 2 ^ (32 - n.ones) := Nat.pow_pos (by decide)
  have e1 := Nat.div_add_mod a (2 ^ (32 - n.ones))
  have e2 := Nat.div_add_mod b (2 ^ (32 - n.ones))
  have e3 := Nat.mod_lt b hp
  rw [ha.2] at e1
  rw [hb.2] at e2
  generalize 2 ^ (32 - n.ones) * (n.IP / 2 ^ (32 - n.ones)) = t at e1 e2
  generalize 2 ^ (32 - n.ones) = q at e1 e2 e3 ⊢
  unfold IP at *
  omega

/-- A scan walks over addresses of the subnet that have a record and are not
`last`, one unit of fuel each. -/
theorem scan_skip (im : IPAM) (id ifName : String) (last : IP) (n fuel : Nat) (start : IP)
    (h : ∀ x, start < x → x ≤ start + n →
      im.subnet.Contains x = true ∧ im.store.Contain x = true ∧ x ≠ last) :
    im.scan id ifName last (fuel + n) start = im.scan id ifName last fuel (start + n) := by
  induction n generalizing start with
  | zero => rfl
  | succ n ih =>
    have h1 := h (start + 1) (Nat.lt_succ_self _) (by unfold IP at *; omega)
    rw [← Nat.add_assoc, scan_succ]
    simp only [h1.1, h1.2.1, h1.2.2, if_true, if_false]
    rw [ih (start + 1)]
    · congr 1
      unfold IP at *
      omega
    · intro x hx hx2
      exact h x (by unfold IP at *; omega) (by unfold IP at *; omega)

/-- From any address there is a first address past it outside the subnet. -/
theorem exists_top (n : IPNet) (start : IP) :
    ∃ k, n.Contains (start + k + 1) = false ∧
      ∀ x, start < x → x ≤ start + k → n.Contains x = true := by
  have hex : ∃ k, n.Contains (start + k + 1) = false := by
    refine ⟨2 ^ 32, ?_⟩
    cases hc : n.Contains (start + 2 ^ 32 + 1) with
    | false => rfl
    | true =>
      have := ((Contains_iff _ _).mp hc).1
      unfold IP at *
      omega
  classical
  refine ⟨Nat.find hex, Nat.find_spec hex, ?_⟩
  intro x hx hx2
  have hlt : x - start - 1 < Nat.find hex := by unfold IP at *; omega
  have := Nat.find_min hex hlt
  have hx3 : start + (x - start - 1) + 1 = x := by unfold IP at *; omega
  rw [hx3] at this
  simpa using this


theorem smallIPAM_full (last : Option IP) (ip : IP)
    (hc : (smallIPAM (fullDoc last)).subnet.Contains ip = true)
    (h1 : ip ≠ (smallIPAM (fullDoc last)).subnet.IP)
    (h2 : ip ≠ (smallIPAM (fullDoc last)).gateway) :
    ∃ e ∈ (fullDoc last).IPs, e.1 = ip := by
  have h : ip = ipv4 10 244 1 2 ∨ ip = ipv4 10 244 1 3 := by
    rw [Contains_iff] at hc
    simp only [smallIPAM, ipv4] at hc h1 h2 ⊢
    norm_num at hc h1 h2 ⊢
    unfold IP at *
    omega
  rcases h with rfl | rfl
  · exact ⟨_, List.mem_cons_self _ _, rfl⟩
  · exact ⟨_, List.mem_cons_of_mem _ (List.mem_cons_self _ _), rfl⟩

theorem pairIPAM_full (ip : IP) (hc : pairIPAM.subnet.Contains ip = true)
    (h1 : ip ≠ pairIPAM.subnet.IP) (h2 : ip ≠ pairIPAM.gateway) :
    ∃ e ∈ ({ IPs := [], Last := none } : data).IPs, e.1 = ip := by
  exfalso
  rw [Contains_iff] at hc
  simp only [pairIPAM, ipv4] at hc h1 h2
  norm_num at hc h1 h2
  unfold IP at *
  omega

/-- C4, as stated, fails when the last-allocated pointer is empty: in
`10.244.1.0/30` with both addresses above the gateway taken and no pointer,
`AllocateIP` for a containerID without a record returns `IPOverflowError`,
the error of `NextIP`, and not the error `no avaiable ip`. The same happens
on the empty document, the first of the reachable files, in
`10.244.1.0/31`, which has no address above the gateway. -/
theorem AllocateIP_full_empty_pointer_overflows :
    NewIPAM smallConf (NewStore (.json (fullDoc none))) = .ok (smallIPAM (fullDoc none)) ∧
      (∀ ip, (smallIPAM (fullDoc none)).subnet.Contains ip = true →
        ip ≠ (smallIPAM (fullDoc none)).subnet.IP → ip ≠ (smallIPAM (fullDoc none)).gateway →
        ∃ e ∈ (fullDoc none).IPs, e.1 = ip) ∧
      (∀ e ∈ (fullDoc none).IPs, e.2.ID ≠ "c3") ∧
      (smallIPAM (fullDoc none)).AllocateIP 5 "c3" "eth0" =
        some ((none, some .IPOverflowError), loaded (smallIPAM (fullDoc none)) (fullDoc none)) ∧
      Error.IPOverflowError ≠ Error.NoAvailableIP ∧
      Reachable pairConf (.json { IPs := [], Last := none }) ∧
      NewIPAM pairConf (NewStore (.json { IPs := [], Last := none })) = .ok pairIPAM ∧
      (∀ ip, pairIPAM.subnet.Contains ip = true → ip ≠ pairIPAM.subnet.IP →
        ip ≠ pairIPAM.gateway → ∃ e ∈ ({ IPs := [], Last := none } : data).IPs, e.1 = ip) ∧
      pairIPAM.AllocateIP 5 "c1" "eth0" =
        some ((none, some .IPOverflowError), loaded pairIPAM { IPs := [], Last := none }) :=
  ⟨rfl, smallIPAM_full none, by decide, by decide, by decide, Reachable.init, rfl,
    pairIPAM_full, by decide⟩


theorem scan_full_from_gateway (im : IPAM) (id ifName : String) (fuel : Nat)
    (hgc : im.subnet.Contains im.gateway = true)
    (hall : ∀ x, im.subnet.Contains x = true → im.gateway < x → im.store.Contain x = true)
    (hfuel : 2 ^ (32 - im.subnet.ones) < fuel) :
    im.scan id ifName im.gateway fuel im.gateway =
      some ((none, some .IPOverflowError), im) := by
  obtain ⟨k, hk1, hk2⟩ := exists_top im.subnet im.gateway
  have hk : k < 2 ^ (32 - im.subnet.ones) := by
    rcases Nat.eq_zero_or_pos k with h0 | hpos
    · rw [h0]
      exact Nat.pow_pos (by decide)
    · have hc := hk2 (im.gateway + k) (by unfold IP at *; omega) (le_refl _)
      have := Contains_dist _ _ _ hgc hc
      unfold IP at *
      omega
  obtain ⟨f, rfl⟩ : ∃ f, fuel = f + 1 + k := ⟨fuel - k - 1, by unfold IP at *; omega⟩
  rw [scan_skip im id ifName im.gateway k (f + 1) im.gateway, scan_succ]
  · simp [hk1]
  · intro x hx hx2
    have hc := hk2 x hx hx2
    exact ⟨hc, hall x hc hx, Nat.ne_of_gt hx⟩

theorem scan_full_from_leased (im : IPAM) (id ifName : String) (fuel : Nat) (l : IP)
    (hgc : im.subnet.Contains im.gateway = true)
    (hall : ∀ x, im.subnet.Contains x = true → im.gateway < x → im.store.Contain x = true)
    (hl : im.subnet.Contains l = true) (hgl : im.gateway < l)
    (hfuel : 2 ^ (32 - im.subnet.ones) < fuel) :
    im.scan id ifName l fuel l = some ((none, some .NoAvailableIP), im) := by
  obtain ⟨k, hk1, hk2⟩ := exists_top im.subnet l
  have hk : l + k < im.gateway + 2 ^ (32 - im.subnet.ones) := by
    rcases Nat.eq_zero_or_pos k with h0 | hpos
    · rw [h0]
      exact Contains_dist _ _ _ hgc hl
    · have hc := hk2 (l + k) (by unfold IP at *; omega) (le_refl _)
      exact Contains_dist _ _ _ hgc hc
  obtain ⟨m, hm⟩ : ∃ m, l = im.gateway + m + 1 := ⟨l - im.gateway - 1, by unfold IP at *; omega⟩
  obtain ⟨f, rfl⟩ : ∃ f, fuel = f + 1 + m + 1 + k :=
    ⟨fuel - k - m - 2, by unfold IP at *; omega⟩
  have hne : l ≠ im.gateway := Nat.ne_of_gt hgl
  rw [scan_skip im id ifName l k (f + 1 + m + 1) l, scan_succ]
  · simp only [hk1, hne]
    simp only [Bool.false_eq_true, if_false, ne_eq, not_false_eq_true, if_true]
    rw [scan_skip im id ifName l m (f + 1) im.gateway, scan_succ]
    · have hl2 : im.store.Contain (im.gateway + m + 1) = true := by
        rw [← hm]
        exact hall l hl hgl
      rw [← hm] at hl2 ⊢
      simp [hl, hl2, hne]
    · intro x hx hx2
      have hc : im.subnet.Contains x = true :=
        Contains_convex _ _ _ _ hgc hl (Nat.le_of_lt hx) (by unfold IP at *; omega)
      refine ⟨hc, hall x hc hx, ?_⟩
      unfold IP at *
      omega
  · intro x hx hx2
    have hc := hk2 x hx hx2
    refine ⟨hc, hall x hc (lt_trans hgl hx), Nat.ne_of_gt hx⟩

/-- C4, amended: in a subnet `NewIPAM` accepts whose every address other than
the network address and the gateway has a record, and with the
last-allocated pointer empty, on the gateway, or on an address of the subnet
above the gateway, `AllocateIP` for a containerID without a record, given
more fuel than the subnet has addresses, fails and leaves the document as
loaded. The error is `IPOverflowError` when the pointer is empty or is the
gateway, and `no avaiable ip` when the pointer is an address of the subnet
above the gateway. Nothing is stated for any other pointer. -/
theorem AllocateIP_exhausted (conf : CNIConf) (s : Store) (im : IPAM) (d : data)
    (id ifName : String) (fuel : Nat)
    (hnew : NewIPAM conf s = .ok im)
    (hload : s.dataFile = .json d)
    (hfull : ∀ ip, im.subnet.Contains ip = true → ip ≠ im.subnet.IP → ip ≠ im.gateway →
      ∃ e ∈ d.IPs, e.1 = ip)
    (hid : ∀ e ∈ d.IPs, e.2.ID ≠ id)
    (hfuel : 2 ^ (32 - im.subnet.ones) < fuel) :
    ((d.Last = none ∨ d.Last = some im.gateway) →
        im.AllocateIP fuel id ifName = some ((none, some .IPOverflowError), loaded im d)) ∧
      (∀ l, d.Last = some l → im.subnet.Contains l = true → im.gateway < l →
        im.AllocateIP fuel id ifName = some ((none, some .NoAvailableIP), loaded im d)) := by
  obtain ⟨hs, hgw, hgc, -⟩ := NewIPAM_ok _ _ _ hnew
  have hall : ∀ x, (loaded im d).subnet.Contains x = true → (loaded im d).gateway < x →
      (loaded im d).store.Contain x = true := by
    intro x hx hgx
    have h1 : x ≠ im.subnet.IP := by
      have : im.gateway < x := hgx
      unfold IP at *
      omega
    obtain ⟨e, he, hex⟩ := hfull x hx h1 (Nat.ne_of_gt hgx)
    simp only [Store.Contain, loaded, List.any_eq_true]
    exact ⟨e, he, by simp [hex]⟩
  have hfile : im.store.dataFile = .json d := by rw [hs]; exact hload
  constructor
  · intro hlast
    unfold IPAM.AllocateIP
    simp only [Store.LoadData, hfile, Store.GetIPByID, find_none_of_no_record d.IPs id hid,
      Store.Last]
    have : (match d.Last with | some l => l | none => im.gateway) = im.gateway := by
      rcases hlast with h | h <;> simp [h]
    rw [this]
    exact scan_full_from_gateway (loaded im d) id ifName fuel hgc hall hfuel
  · intro l hlast hl hgl
    unfold IPAM.AllocateIP
    simp only [Store.LoadData, hfile, Store.GetIPByID, find_none_of_no_record d.IPs id hid,
      Store.Last, hlast]
    exact scan_full_from_leased (loaded im d) id ifName fuel l hgc hall hl hgl hfuel

/-- An instance of `AllocateIP_exhausted` in `10.244.1.0/30` with both usable
addresses taken and the pointer on `10.244.1.3`. -/
theorem AllocateIP_exhausted_witness :
    NewIPAM smallConf (NewStore (.json (fullDoc (some (ipv4 10 244 1 3))))) =
        .ok (smallIPAM (fullDoc (some (ipv4 10 244 1 3)))) ∧
      (smallIPAM (fullDoc (some (ipv4 10 244 1 3)))).AllocateIP 5 "c3" "eth0" =
        some ((none, some .NoAvailableIP),
          loaded (smallIPAM (fullDoc (some (ipv4 10 244 1 3))))
            (fullDoc (some (ipv4 10 244 1 3)))) :=
  ⟨rfl,
    (AllocateIP_exhausted smallConf (NewStore (.json (fullDoc (some (ipv4 10 244 1 3)))))
      (smallIPAM (fullDoc (some (ipv4 10 244 1 3)))) (fullDoc (some (ipv4 10 244 1 3)))
      "c3" "eth0" 5 rfl rfl (smallIPAM_full _) (by decide) (by decide)).2
      (ipv4 10 244 1 3) rfl (by decide) (by decide)⟩


/-! ## Release, load, `NextIP`, and the sample scenario -/

theorem mapGet_mapDelete_ne {β : Type} (m : List (IP × β)) (k k' : IP) (h : k' ≠ k) :
    mapGet (mapDelete m k) k' = mapGet m k' := by
  unfold mapGet mapDelete
  rw [List.find?_filter]
  congr 2
  funext e
  by_cases h2 : e.1 = k'
  · simp [h2, h]
  · simp [h2]

theorem mapGet_mapDelete_self {β : Type} (m : List (IP × β)) (k : IP) :
    mapGet (mapDelete m k) k = none := by
  unfold mapGet mapDelete
  simp only [Option.map_eq_none', List.find?_eq_none, List.mem_filter]
  intro e he
  simpa using he.2

/-- C5: on a loaded document `ReleaseIP` returns no error. When no record
carries the containerID the document is unchanged. When some record carries
it, one such record is removed: its address has no record afterwards and
`Contain` no longer reports it, so that a scan can hand it out again, while
the record of every other address and the last-allocated pointer are as
before. -/
theorem ReleaseIP_removes_one_binding (im : IPAM) (d : data) (id : String)
    (hload : im.store.dataFile = .json d) :
    (im.ReleaseIP id).1 = none ∧
      ((∀ e ∈ d.IPs, e.2.ID ≠ id) → (im.ReleaseIP id).2 = loaded im d) ∧
      ((∃ e ∈ d.IPs, e.2.ID = id) →
        ∃ e ∈ d.IPs, e.2.ID = id ∧
          ∃ d', (im.ReleaseIP id).2 = loaded im d' ∧ d'.Last = d.Last ∧
            mapGet d'.IPs e.1 = none ∧ (im.ReleaseIP id).2.store.Contain e.1 = false ∧
            (∀ k, k ≠ e.1 → mapGet d'.IPs k = mapGet d.IPs k) ∧
            ∀ x, x ∈ d'.IPs ↔ x ∈ d.IPs ∧ x.1 ≠ e.1) := by
  unfold IPAM.ReleaseIP
  simp only [Store.LoadData, hload, Store.Del]
  cases hf : d.IPs.find? (fun e => e.2.ID == id) with
  | none =>
    refine ⟨rfl, fun _ => rfl, ?_⟩
    rintro ⟨e, he, hid⟩
    have := List.find?_eq_none.mp hf e he
    simp [hid] at this
  | some e =>
    refine ⟨rfl, ?_, fun _ => ?_⟩
    · intro hno
      have := hno e (List.mem_of_find?_eq_some hf)
      have hid : e.2.ID = id := by simpa using List.find?_some hf
      exact absurd hid this
    · refine ⟨e, List.mem_of_find?_eq_some hf, by simpa using List.find?_some hf,
        { d with IPs := mapDelete d.IPs e.1 }, rfl, rfl, mapGet_mapDelete_self _ _, ?_,
        fun k hk => mapGet_mapDelete_ne _ _ _ hk, ?_⟩
      · simp [Store.Store, Store.Contain, mapDelete]
      · intro x
        simp [mapDelete]

/-- An instance of `ReleaseIP_removes_one_binding`: releasing `c1` from
`sampleDoc2` leaves the record of `c2` and the pointer `10.244.1.3`. -/
theorem ReleaseIP_removes_one_binding_witness :
    (sampleIPAM sampleDoc2).store.dataFile = .json sampleDoc2 ∧
      ((sampleIPAM sampleDoc2).ReleaseIP "c1").1 = none ∧
      ((sampleIPAM sampleDoc2).ReleaseIP "c1").2 = loaded (sampleIPAM sampleDoc2)
        { IPs := [(ipv4 10 244 1 3, { ID := "c2", IFName := "eth0" })],
          Last := some (ipv4 10 244 1 3) } :=
  ⟨rfl, (ReleaseIP_removes_one_binding (sampleIPAM sampleDoc2) sampleDoc2 "c1" rfl).1,
    by decide⟩

/-- C8, on the code: with the data file absent, `LoadData` creates the file but
returns the error of `os.ReadFile`, so the first `AllocateIP` on a node whose
data file was never written fails; only the call after it succeeds. -/
theorem AllocateIP_absent_file_fails (fuel : Nat) :
    (NewStore .absent).LoadData =
        (some .NotExist, NewStore (.json { IPs := [], Last := none })) ∧
      NewIPAM sampleConf (NewStore .absent) = .ok freshIPAM ∧
      freshIPAM.AllocateIP fuel "c1" "eth0" =
        some ((none, some .NotExist), sampleIPAM { IPs := [], Last := none }) ∧
      (sampleIPAM { IPs := [], Last := none }).AllocateIP (fuel + 1) "c1" "eth0" =
        some ((some (ipv4 10 244 1 2), none),
          loaded (sampleIPAM { IPs := [], Last := none }) sampleDoc1) := by
  refine ⟨rfl, rfl, rfl, ?_⟩
  unfold IPAM.AllocateIP
  simp only [Store.LoadData, sampleIPAM, NewStore, Store.GetIPByID, List.find?_nil, Store.Last]
  rw [scan_succ]
  rfl

theorem sample_top :
    IPNet.Contains { IP := ipv4 10 244 1 0, ones := 24 } (ipv4 10 244 1 255 + 1) = false := by
  decide

/-- C9: `NextIP` returns the address plus one, and no error, when that address
is contained in the subnet, and otherwise the nil address with
`IPOverflowError`; so in `10.244.1.0/24`, as `net.ParseCIDR` builds it,
`NextIP(10.244.1.255)` is the overflow error and not `10.244.2.0`. -/
theorem NextIP_next_or_overflow (im : IPAM) (ip : IP) :
    im.NextIP ip =
        (if im.subnet.Contains (ip + 1) = true then (some (ip + 1), none)
          else (none, some .IPOverflowError)) ∧
      ParseCIDR { addr := ipv4 10 244 1 0, ones := 24 } =
        .ok (ipv4 10 244 1 0, { IP := ipv4 10 244 1 0, ones := 24 }) ∧
      ipv4 10 244 1 255 + 1 = ipv4 10 244 2 0 ∧
      ({ im with subnet := { IP := ipv4 10 244 1 0, ones := 24 } } : IPAM).NextIP
          (ipv4 10 244 1 255) = (none, some .IPOverflowError) := by
  refine ⟨NextIP_eq im ip, rfl, rfl, ?_⟩
  rw [NextIP_eq, if_neg]
  rw [sample_top]
  exact Bool.false_ne_true


/-- A scan that returns with some fuel returns the same with more. -/
theorem scan_mono (im : IPAM) (id ifName : String) (last : IP) (fuel k : Nat) (start : IP)
    (r : (Option IP × Option Error) × IPAM)
    (h : im.scan id ifName last fuel start = some r) :
    im.scan id ifName last (fuel + k) start = some r := by
  induction fuel generalizing start with
  | zero => simp [IPAM.scan] at h
  | succ n ih =>
    rw [Nat.add_right_comm, scan_succ]
    rw [scan_succ] at h
    split_ifs at h ⊢ with h1 h2 h3 h4
    · exact h
    · exact ih _ h
    · exact h
    · exact ih _ h
    · exact h

/-- A call of `AllocateIP` that returns with some fuel returns the same with more. -/
theorem AllocateIP_mono (im : IPAM) (id ifName : String) (fuel fuel' : Nat)
    (r : (Option IP × Option Error) × IPAM) (hle : fuel ≤ fuel')
    (h : im.AllocateIP fuel id ifName = some r) :
    im.AllocateIP fuel' id ifName = some r := by
  obtain ⟨k, rfl⟩ := Nat.exists_eq_add_of_le hle
  unfold IPAM.AllocateIP at h ⊢
  split at h
  · exact h
  · dsimp only at h ⊢
    split at h
    · exact h
    · exact scan_mono _ _ _ _ _ _ _ _ h

/-- C10: for `10.244.1.0/24` `NewIPAM` computes the gateway `10.244.1.1`, and
from a document with no records and an empty pointer, whatever fuel the
calls are given beyond one unit, `AllocateIP("c1")` returns `10.244.1.2`,
`AllocateIP("c2")` returns `10.244.1.3`, `ReleaseIP("c1")` returns no error
and `AllocateIP("c3")` returns `10.244.1.4`; then `10.244.1.2` has no record
and the last-allocated pointer is `10.244.1.4`. -/
theorem sample_scenario (f1 f2 f3 : Nat) :
    ∃ im0 im1 im2 im3 im4 : IPAM,
      NewIPAM sampleConf (NewStore (.json { IPs := [], Last := none })) = .ok im0 ∧
      im0.gateway = ipv4 10 244 1 1 ∧
      im0.AllocateIP (f1 + 1) "c1" "eth0" = some ((some (ipv4 10 244 1 2), none), im1) ∧
      im1.AllocateIP (f2 + 1) "c2" "eth0" = some ((some (ipv4 10 244 1 3), none), im2) ∧
      im2.ReleaseIP "c1" = (none, im3) ∧
      im3.AllocateIP (f3 + 1) "c3" "eth0" = some ((some (ipv4 10 244 1 4), none), im4) ∧
      im1.store.dataFile = .json sampleDoc1 ∧ im2.store.dataFile = .json sampleDoc2 ∧
      im3.store.dataFile = .json sampleDoc3 ∧ im4.store.dataFile = .json sampleDoc4 ∧
      im4.store.Contain (ipv4 10 244 1 2) = false ∧
      mapGet sampleDoc4.IPs (ipv4 10 244 1 2) = none ∧
      im4.store.Last = some (ipv4 10 244 1 4) := by
  refine ⟨sampleIPAM { IPs := [], Last := none },
    loaded (sampleIPAM { IPs := [], Last := none }) sampleDoc1,
    loaded (sampleIPAM { IPs := [], Last := none }) sampleDoc2,
    loaded (sampleIPAM { IPs := [], Last := none }) sampleDoc3,
    loaded (sampleIPAM { IPs := [], Last := none }) sampleDoc4,
    rfl, rfl, ?_, ?_, by decide, ?_, rfl, rfl, rfl, rfl, by decide, by decide, rfl⟩
  · exact AllocateIP_mono _ _ _ 1 _ _ (Nat.le_add_left 1 f1) (by decide)
  · exact AllocateIP_mono _ _ _ 1 _ _ (Nat.le_add_left 1 f2) (by decide)
  · exact AllocateIP_mono _ _ _ 1 _ _ (Nat.le_add_left 1 f3) (by decide)


/-! ## The route reconciler -/

/-- C6, on the code: with the mirror holding the route to `10.244.2.0/24` through
`192.168.0.2`, as a pass left it, and `node2` now at `192.168.0.3`, one pass
without error hands the installed route, not the wanted one, to
`RouteReplace` and stores it back: the mirror still names `192.168.0.2` and
differs from the wanted set. -/
theorem Reconcile_keeps_outdated_route :
    (sampleReconciler []).Reconcile [selfNode, peerNode (ipv4 192 168 0 2)] =
        (none, { sampleReconciler [(⟨ipv4 10 244 2 0, 24⟩, peerRoute (ipv4 192 168 0 2))] with
          kernel := [.RouteAdd (peerRoute (ipv4 192 168 0 2))] }) ∧
      (sampleReconciler [(⟨ipv4 10 244 2 0, 24⟩, peerRoute (ipv4 192 168 0 2))]).Reconcile
          [selfNode, peerNode (ipv4 192 168 0 3)] =
        (none, { sampleReconciler [(⟨ipv4 10 244 2 0, 24⟩, peerRoute (ipv4 192 168 0 2))] with
          kernel := [.RouteReplace (peerRoute (ipv4 192 168 0 2))] }) ∧
      (sampleReconciler [(⟨ipv4 10 244 2 0, 24⟩, peerRoute (ipv4 192 168 0 2))]).wanted
          [selfNode, peerNode (ipv4 192 168 0 3)] =
        [(⟨ipv4 10 244 2 0, 24⟩, peerRoute (ipv4 192 168 0 3))] ∧
      [((⟨ipv4 10 244 2 0, 24⟩ : IPNet), peerRoute (ipv4 192 168 0 2))] ≠
        [(⟨ipv4 10 244 2 0, 24⟩, peerRoute (ipv4 192 168 0 3))] := by
  refine ⟨by decide, by decide, by decide, by decide⟩

/-- C7, on the code: with the mirror seeded from the kernel route to
`10.244.2.0/24` through `192.168.0.2` on the host link, and `node2` at
`192.168.0.2`, a pass completes without error after one `RouteReplace` and
leaves the mirror as it was; a second pass over the same nodes makes the same
`RouteReplace` call again. -/
theorem Reconcile_second_pass_replaces_again :
    seededRoutes =
        [(⟨ipv4 10 244 2 0, 24⟩, listedPeerRoute)] ∧
      (sampleReconciler seededRoutes).Reconcile [selfNode, peerNode (ipv4 192 168 0 2)] =
        (none, { sampleReconciler seededRoutes with
          kernel := [.RouteReplace listedPeerRoute] }) ∧
      ((sampleReconciler seededRoutes).Reconcile [selfNode, peerNode (ipv4 192 168 0 2)]).1 =
        none ∧
      ((sampleReconciler ((sampleReconciler seededRoutes).Reconcile
          [selfNode, peerNode (ipv4 192 168 0 2)]).2.routes).Reconcile
          [selfNode, peerNode (ipv4 192 168 0 2)]).2.kernel =
        [.RouteReplace listedPeerRoute] := by
  refine ⟨by decide, by decide, by decide, by decide⟩

/-! ## One address per container -/

theorem AllocateIP_unique (fuel : Nat) (im im' : IPAM) (id ifName : String)
    (r : Option IP × Option Error) (d : data)
    (hload : im.store.dataFile = .json d) (hu : UniqueIDs d)
    (h : im.AllocateIP fuel id ifName = some (r, im')) :
    ∃ d', im'.store.dataFile = .json d' ∧ UniqueIDs d' := by
  unfold IPAM.AllocateIP at h
  simp only [Store.LoadData, hload, Store.GetIPByID] at h
  cases hf : d.IPs.find? (fun e => e.2.ID == id) with
  | some e =>
    simp only [hf, Option.some.injEq, Prod.mk.injEq] at h
    obtain ⟨-, him⟩ := h
    subst him
    exact ⟨d, rfl, hu⟩
  | none =>
    simp only [hf] at h
    rcases scan_result _ _ _ _ _ _ _ _ h with ⟨-, -, p3⟩ | ⟨a, -, p2, -, p4, -⟩
    · subst p3
      exact ⟨d, rfl, hu⟩
    · subst p4
      simp only [Store.Contain] at p2
      simp only [Store.Add, Store.Store, mapSet_of_not_Contain _ _ _ p2]
      refine ⟨_, rfl, ?_⟩
      unfold UniqueIDs at hu ⊢
      simp only [List.map_append, List.map_cons, List.map_nil]
      rw [List.nodup_append]
      refine ⟨hu, List.nodup_singleton _, ?_⟩
      intro x hx hx'
      simp only [List.mem_singleton] at hx'
      subst hx'
      obtain ⟨e, he, hid⟩ := List.mem_map.mp hx
      have := List.find?_eq_none.mp hf e he
      simp [hid] at this

theorem ReleaseIP_unique (im : IPAM) (id : String) (d : data)
    (hload : im.store.dataFile = .json d) (hu : UniqueIDs d) :
    ∃ d', (im.ReleaseIP id).2.store.dataFile = .json d' ∧ UniqueIDs d' ∧
      ∀ e ∈ d'.IPs, e.2.ID ≠ id := by
  unfold IPAM.ReleaseIP
  simp only [Store.LoadData, hload, Store.Del]
  cases hf : d.IPs.find? (fun e => e.2.ID == id) with
  | none =>
    refine ⟨d, rfl, hu, ?_⟩
    intro e he hid
    have := List.find?_eq_none.mp hf e he
    simp [hid] at this
  | some e =>
    have hmem := List.mem_of_find?_eq_some hf
    have hid : e.2.ID = id := by simpa using List.find?_some hf
    refine ⟨{ d with IPs := mapDelete d.IPs e.1 }, rfl, ?_, ?_⟩
    · unfold UniqueIDs at hu ⊢
      exact hu.sublist ((List.filter_sublist _).map _)
    · intro e' he' hid'
      simp only [mapDelete, List.mem_filter] at he'
      have heq : e' = e :=
        List.inj_on_of_nodup_map hu he'.1 hmem (hid'.trans hid.symm)
      rw [heq] at he'
      simp at he'

theorem CheckIP_of_no_record (im : IPAM) (id : String) (d : data)
    (hload : im.store.dataFile = .json d) (hno : ∀ e ∈ d.IPs, e.2.ID ≠ id) :
    (im.CheckIP id).1 = (none, some .NotFound) := by
  unfold IPAM.CheckIP
  simp only [Store.LoadData, hload, Store.GetIPByID, find_none_of_no_record d.IPs id hno]

theorem Reachable_unique (conf : CNIConf) (disk : File) (hr : Reachable conf disk) :
    ∃ d, disk = .json d ∧ UniqueIDs d := by
  induction hr with
  | init => exact ⟨_, rfl, List.nodup_nil⟩
  | @allocate disk im im' fuel id ifName r _ hnew h ih =>
    obtain ⟨d, hd, hu⟩ := ih
    obtain ⟨hs, -, -, -⟩ := NewIPAM_ok _ _ _ hnew
    exact AllocateIP_unique _ _ _ _ _ _ d (by rw [hs]; exact hd) hu h
  | @release disk im im' id r _ hnew h ih =>
    obtain ⟨d, hd, hu⟩ := ih
    obtain ⟨hs, -, -, -⟩ := NewIPAM_ok _ _ _ hnew
    obtain ⟨d', h1, h2, -⟩ := ReleaseIP_unique im id d (by rw [hs]; exact hd) hu
    rw [h] at h1
    exact ⟨d', h1, h2⟩
  | @reorder d d' _ hperm hlast ih =>
    obtain ⟨d0, hd0, hu⟩ := ih
    simp only [File.json.injEq] at hd0
    subst hd0
    refine ⟨d', rfl, ?_⟩
    unfold UniqueIDs at hu ⊢
    exact (List.Perm.nodup_iff (hperm.map _)).mpr hu

/-- C11: in every data file reached from the empty document by `AllocateIP` and
`ReleaseIP` calls, no two records carry the same containerID. So, from such
a file, `ReleaseIP(id)` leaves no record for `id`, and `CheckIP(id)` then
fails, in whatever order the records are ranged over. -/
theorem Reachable_one_address_per_container (conf : CNIConf) (disk : File)
    (hr : Reachable conf disk) :
    ∃ d, disk = .json d ∧ UniqueIDs d ∧
      ∀ (im : IPAM) (id : String), im.store.dataFile = disk →
        ∃ d', (im.ReleaseIP id).2.store.dataFile = .json d' ∧
          (∀ e ∈ d'.IPs, e.2.ID ≠ id) ∧
          ((im.ReleaseIP id).2.CheckIP id).1 = (none, some .NotFound) ∧
          ∀ (im2 : IPAM) (d2 : data), im2.store.dataFile = .json d2 →
            List.Perm d2.IPs d'.IPs → (im2.CheckIP id).1 = (none, some .NotFound) := by
  obtain ⟨d, hd, hu⟩ := Reachable_unique conf disk hr
  refine ⟨d, hd, hu, ?_⟩
  intro im id him
  obtain ⟨d', h1, -, h3⟩ := ReleaseIP_unique im id d (by rw [him]; exact hd) hu
  refine ⟨d', h1, h3, CheckIP_of_no_record _ id d' h1 h3, ?_⟩
  intro im2 d2 h2 hperm
  exact CheckIP_of_no_record im2 id d2 h2 (fun e he => h3 e (hperm.mem_iff.mp he))

/-- An instance of `Reachable_one_address_per_container`: the file left by the
first allocation in `10.244.1.0/24`. -/
theorem Reachable_one_address_per_container_witness :
    ∃ d, File.json sampleDoc1 = .json d ∧ UniqueIDs d ∧
      ∀ (im : IPAM) (id : String), im.store.dataFile = .json sampleDoc1 →
        ∃ d', (im.ReleaseIP id).2.store.dataFile = .json d' ∧
          (∀ e ∈ d'.IPs, e.2.ID ≠ id) ∧
          ((im.ReleaseIP id).2.CheckIP id).1 = (none, some .NotFound) ∧
          ∀ (im2 : IPAM) (d2 : data), im2.store.dataFile = .json d2 →
            List.Perm d2.IPs d'.IPs → (im2.CheckIP id).1 = (none, some .NotFound) :=
  Reachable_one_address_per_container sampleConf (.json sampleDoc1)
    (@Reachable.allocate sampleConf (.json { IPs := [], Last := none })
      (sampleIPAM { IPs := [], Last := none })
      (loaded (sampleIPAM { IPs := [], Last := none }) sampleDoc1)
      1 "c1" "eth0" (some (ipv4 10 244 1 2), none)
      Reachable.init rfl (by decide))

/-! ## The order of the scan -/

/-- A scan that meets only taken addresses of the subnet, none of them `last`,
before the free address `a` of the subnet, hands out `a`. -/
theorem scan_first_free (im : IPAM) (id ifName : String) (last : IP) (fuel : Nat)
    (start a : IP) (hlt : start < a) (hca : im.subnet.Contains a = true)
    (hfree : im.store.Contain a = false)
    (hbusy : ∀ x, start < x → x < a →
      im.subnet.Contains x = true ∧ im.store.Contain x = true ∧ x ≠ last)
    (hfuel : a - start ≤ fuel) :
    im.scan id ifName last fuel start =
      some ((some a, (im.store.Add (some a) id ifName).1),
        { im with store := (im.store.Add (some a) id ifName).2 }) := by
  obtain ⟨m, hm⟩ : ∃ m, a = start + m + 1 := ⟨a - start - 1, by unfold IP at *; omega⟩
  obtain ⟨f, rfl⟩ : ∃ f, fuel = f + 1 + m := ⟨fuel - m - 1, by unfold IP at *; omega⟩
  rw [scan_skip im id ifName last m (f + 1) start, scan_succ]
  · rw [← hm]
    simp [hca, hfree]
  · intro x hx hx2
    exact hbusy x hx (by unfold IP at *; omega)

theorem Contain_loaded_false (im : IPAM) (d : data) (a : IP) (h : ∀ e ∈ d.IPs, e.1 ≠ a) :
    (loaded im d).store.Contain a = false := by
  simp only [Store.Contain, loaded, List.any_eq_false]
  intro e he
  simpa using h e he

theorem Contain_loaded_true (im : IPAM) (d : data) (x : IP) (h : ∃ e ∈ d.IPs, e.1 = x) :
    (loaded im d).store.Contain x = true := by
  obtain ⟨e, he, hex⟩ := h
  simp only [Store.Contain, loaded, List.any_eq_true]
  exact ⟨e, he, by simp [hex]⟩

theorem Add_loaded (im : IPAM) (d : data) (a : IP) (id ifName : String)
    (h : ∀ e ∈ d.IPs, e.1 ≠ a) :
    ((some a, ((loaded im d).store.Add (some a) id ifName).1),
        ({ loaded im d with store := ((loaded im d).store.Add (some a) id ifName).2 } : IPAM)) =
      ((some a, none),
        loaded im { IPs := d.IPs ++ [(a, { ID := id, IFName := ifName })], Last := some a }) := by
  have hc := Contain_loaded_false im d a h
  simp only [Store.Contain, loaded] at hc
  simp only [Store.Add, Store.Store, loaded, mapSet_of_not_Contain _ _ _ hc]

/-- With every address of the subnet above `last` taken, the scan restarts
from the gateway and hands out the first free address up to `last`. -/
theorem scan_wraps_to_first_free (im : IPAM) (id ifName : String) (fuel : Nat) (l a : IP)
    (hgc : im.subnet.Contains im.gateway = true)
    (hl : im.subnet.Contains l = true) (hgl : im.gateway < l)
    (hall : ∀ x, l < x → im.subnet.Contains x = true → im.store.Contain x = true)
    (hga : im.gateway < a) (hal : a ≤ l) (hfree : im.store.Contain a = false)
    (hbusy : ∀ x, im.gateway < x → x < a → im.store.Contain x = true)
    (hfuel : 2 ^ (32 - im.subnet.ones) < fuel) :
    im.scan id ifName l fuel l =
      some ((some a, (im.store.Add (some a) id ifName).1),
        { im with store := (im.store.Add (some a) id ifName).2 }) := by
  obtain ⟨k, hk1, hk2⟩ := exists_top im.subnet l
  have hk : l + k < im.gateway + 2 ^ (32 - im.subnet.ones) := by
    rcases Nat.eq_zero_or_pos k with h0 | hpos
    · rw [h0]
      exact Contains_dist _ _ _ hgc hl
    · have hc := hk2 (l + k) (by unfold IP at *; omega) (le_refl _)
      exact Contains_dist _ _ _ hgc hc
  obtain ⟨f, rfl⟩ : ∃ f, fuel = f + 1 + k := ⟨fuel - k - 1, by unfold IP at *; omega⟩
  have hne : l ≠ im.gateway := Nat.ne_of_gt hgl
  have hca : im.subnet.Contains a = true :=
    Contains_convex _ _ _ _ hgc hl (Nat.le_of_lt hga) hal
  rw [scan_skip im id ifName l k (f + 1) l, scan_succ]
  · simp only [hk1, Bool.false_eq_true, if_false]
    rw [if_pos hne]
    refine scan_first_free im id ifName l f im.gateway a hga hca hfree ?_ ?_
    · intro x hx hx2
      refine ⟨Contains_convex _ _ _ _ hgc hl (Nat.le_of_lt hx) (by unfold IP at *; omega),
        hbusy x hx hx2, ?_⟩
      unfold IP at *
      omega
    · unfold IP at *
      omega
  · intro x hx hx2
    have hc := hk2 x hx hx2
    exact ⟨hc, hall x hx hc, Nat.ne_of_gt hx⟩

/-- C12: in a subnet `NewIPAM` accepts, for a containerID without a record and
more fuel than the subnet has addresses, `AllocateIP` returns the first
address without a record in the order `L+1, ..., ` highest address,
`gateway+1, ..., L`, where the last-allocated pointer `L` is an address of
the subnet above the gateway: the first free address above `L` if there is
one, and otherwise, every address above `L` being taken, the first free
address from `gateway+1` up to `L`. With an empty pointer it returns the
first free address above the gateway. The address is recorded with the old
records and becomes the last-allocated pointer. -/
theorem AllocateIP_round_robin (conf : CNIConf) (s : Store) (im : IPAM) (d : data)
    (id ifName : String) (fuel : Nat) (a : IP)
    (hnew : NewIPAM conf s = .ok im)
    (hload : s.dataFile = .json d)
    (hid : ∀ e ∈ d.IPs, e.2.ID ≠ id)
    (ha : im.subnet.Contains a = true)
    (hfuel : 2 ^ (32 - im.subnet.ones) < fuel) :
    (∀ l, d.Last = some l → im.subnet.Contains l = true → im.gateway < l →
        (FirstFreeAfter d l a ∨
          ((∀ x, l < x → im.subnet.Contains x = true → ∃ e ∈ d.IPs, e.1 = x) ∧ a ≤ l ∧
            FirstFreeAfter d im.gateway a)) →
        im.AllocateIP fuel id ifName =
          some ((some a, none),
            loaded im { IPs := d.IPs ++ [(a, { ID := id, IFName := ifName })],
                        Last := some a })) ∧
      (d.Last = none → FirstFreeAfter d im.gateway a →
        im.AllocateIP fuel id ifName =
          some ((some a, none),
            loaded im { IPs := d.IPs ++ [(a, { ID := id, IFName := ifName })],
                        Last := some a })) := by
  obtain ⟨hs, hgw, hgc, -⟩ := NewIPAM_ok _ _ _ hnew
  have hfile : im.store.dataFile = .json d := by rw [hs]; exact hload
  have hpow : 0 < 2 ^ (32 - im.subnet.ones) := Nat.pow_pos (by decide)
  constructor
  · intro l hlast hl hgl hcase
    unfold IPAM.AllocateIP
    simp only [Store.LoadData, hfile, Store.GetIPByID, find_none_of_no_record d.IPs id hid,
      Store.Last, hlast]
    rcases hcase with ⟨hla, hfree, hbusy⟩ | ⟨hall, hal, hga, hfree, hbusy⟩
    · have h := scan_first_free (loaded im d) id ifName l fuel l a hla ha
        (Contain_loaded_false im d a hfree)
        (fun x hx hx2 =>
          ⟨Contains_convex _ _ _ _ hl ha (Nat.le_of_lt hx) (Nat.le_of_lt hx2),
            Contain_loaded_true im d x (hbusy x hx hx2), Nat.ne_of_gt hx⟩)
        (by
          have := Contains_dist _ _ _ hl ha
          unfold IP at *
          omega)
      rw [Add_loaded im d a id ifName hfree] at h
      exact h
    · have h := scan_wraps_to_first_free (loaded im d) id ifName fuel l a hgc hl hgl
        (fun x hx hc => Contain_loaded_true im d x (hall x hx hc)) hga hal
        (Contain_loaded_false im d a hfree)
        (fun x hx hx2 => Contain_loaded_true im d x (hbusy x hx hx2)) hfuel
      rw [Add_loaded im d a id ifName hfree] at h
      exact h
  · intro hlast ⟨hga, hfree, hbusy⟩
    unfold IPAM.AllocateIP
    simp only [Store.LoadData, hfile, Store.GetIPByID, find_none_of_no_record d.IPs id hid,
      Store.Last, hlast]
    have h := scan_first_free (loaded im d) id ifName im.gateway fuel im.gateway a hga ha
      (Contain_loaded_false im d a hfree)
      (fun x hx hx2 =>
        ⟨Contains_convex _ _ _ _ hgc ha (Nat.le_of_lt hx) (Nat.le_of_lt hx2),
          Contain_loaded_true im d x (hbusy x hx hx2), Nat.ne_of_gt hx⟩)
      (by
        have := Contains_dist _ _ _ hgc ha
        unfold IP at *
        omega)
    rw [Add_loaded im d a id ifName hfree] at h
    exact h

theorem wrapDoc_above_taken (x : IP) (hx : ipv4 10 244 1 3 < x)
    (hc : (smallIPAM wrapDoc).subnet.Contains x = true) : ∃ e ∈ wrapDoc.IPs, e.1 = x := by
  exfalso
  rw [Contains_iff] at hc
  simp only [smallIPAM, ipv4] at hc hx
  norm_num at hc hx
  unfold IP at *
  omega

theorem wrapDoc_first_free :
    FirstFreeAfter wrapDoc (smallIPAM wrapDoc).gateway (ipv4 10 244 1 2) := by
  refine ⟨by decide, by decide, ?_⟩
  intro x h1 h2
  exfalso
  simp only [smallIPAM, ipv4] at h1 h2
  norm_num at h1 h2
  unfold IP at *
  omega

/-- An instance of `AllocateIP_round_robin` with a wraparound: in
`10.244.1.0/30`, with the pointer on the taken `10.244.1.3`, the highest
address, and `10.244.1.2` free, the allocation returns `10.244.1.2`. -/
theorem AllocateIP_round_robin_witness :
    NewIPAM smallConf (NewStore (.json wrapDoc)) = .ok (smallIPAM wrapDoc) ∧
      (smallIPAM wrapDoc).AllocateIP 5 "c3" "eth0" =
        some ((some (ipv4 10 244 1 2), none),
          loaded (smallIPAM wrapDoc)
            { IPs := wrapDoc.IPs ++ [(ipv4 10 244 1 2, { ID := "c3", IFName := "eth0" })],
              Last := some (ipv4 10 244 1 2) }) :=
  ⟨rfl,
    (AllocateIP_round_robin smallConf (NewStore (.json wrapDoc)) (smallIPAM wrapDoc) wrapDoc
      "c3" "eth0" 5 (ipv4 10 244 1 2) rfl rfl (by decide) (by decide) (by decide)).1
      (ipv4 10 244 1 3) rfl (by decide) (by decide)
      (Or.inr ⟨wrapDoc_above_taken, by decide, wrapDoc_first_free⟩)⟩

/-! ## Termination of the scan -/

/-- With every address of the subnet above the gateway taken and `last`
outside the subnet, a scan that has entered the subnet never returns: it
never meets `last`, and at the top of the subnet it restarts from the
gateway. -/
theorem scan_cycles_forever (im : IPAM) (id ifName : String) (last : IP)
    (hgc : im.subnet.Contains im.gateway = true)
    (hall : ∀ x, im.subnet.Contains x = true → im.gateway < x → im.store.Contain x = true)
    (hlast : im.subnet.Contains last = false) (fuel : Nat) (start : IP)
    (hstart : im.gateway ≤ start) :
    im.scan id ifName last fuel start = none := by
  induction fuel generalizing start with
  | zero => rfl
  | succ n ih =>
    rw [scan_succ]
    by_cases hc : im.subnet.Contains (start + 1) = true
    · have hin := hall (start + 1) hc (Nat.lt_succ_of_le hstart)
      have hne : start + 1 ≠ last := by
        intro h
        rw [h, hlast] at hc
        exact Bool.false_ne_true hc
      rw [if_pos hc, if_pos hin, if_neg hne]
      exact ih (start + 1) (Nat.le_succ_of_le hstart)
    · have hne : last ≠ im.gateway := by
        intro h
        rw [h, hgc] at hlast
        exact Bool.false_ne_true hlast.symm
      rw [if_neg hc, if_pos hne]
      exact ih im.gateway (le_refl _)

/-- On a full subnet `NewIPAM` accepts, with the last-allocated pointer on an
address outside the subnet whose successor is outside it too, `AllocateIP`
for a containerID without a record returns with no amount of fuel. -/
theorem AllocateIP_diverges_of_stale_pointer (conf : CNIConf) (s : Store) (im : IPAM)
    (d : data) (id ifName : String) (l : IP) (fuel : Nat)
    (hnew : NewIPAM conf s = .ok im)
    (hload : s.dataFile = .json d)
    (hfull : ∀ ip, im.subnet.Contains ip = true → ip ≠ im.subnet.IP → ip ≠ im.gateway →
      ∃ e ∈ d.IPs, e.1 = ip)
    (hid : ∀ e ∈ d.IPs, e.2.ID ≠ id)
    (hlast : d.Last = some l)
    (hl : im.subnet.Contains l = false) (hl1 : im.subnet.Contains (l + 1) = false) :
    im.AllocateIP fuel id ifName = none := by
  obtain ⟨hs, hgw, hgc, -⟩ := NewIPAM_ok _ _ _ hnew
  have hfile : im.store.dataFile = .json d := by rw [hs]; exact hload
  have hall : ∀ x, (loaded im d).subnet.Contains x = true → (loaded im d).gateway < x →
      (loaded im d).store.Contain x = true := by
    intro x hx hgx
    have h1 : x ≠ im.subnet.IP := by
      have : im.gateway < x := hgx
      unfold IP at *
      omega
    exact Contain_loaded_true im d x (hfull x hx h1 (Nat.ne_of_gt hgx))
  have hne : l ≠ (loaded im d).gateway := by
    intro h
    have h' : l = im.gateway := h
    rw [h', hgc] at hl
    exact Bool.false_ne_true hl.symm
  unfold IPAM.AllocateIP
  simp only [Store.LoadData, hfile, Store.GetIPByID, find_none_of_no_record d.IPs id hid,
    Store.Last, hlast]
  change (loaded im d).scan id ifName l fuel l = none
  cases fuel with
  | zero => rfl
  | succ n =>
    rw [scan_succ]
    have hl1' : ¬ ((loaded im d).subnet.Contains (l + 1) = true) := by
      intro h
      have h' : im.subnet.Contains (l + 1) = true := h
      rw [hl1] at h'
      exact Bool.false_ne_true h'
    rw [if_neg hl1', if_pos hne]
    exact scan_cycles_forever (loaded im d) id ifName l hgc hall hl n _ (le_refl _)

/-- C13, on the code: in `10.244.1.0/30` with both addresses above the gateway
taken and the last-allocated pointer on `10.244.0.5`, an address left from
another subnet, `AllocateIP` for a containerID without a record does not
return, whatever the fuel: the scan never meets the pointer and restarts
from the gateway at every overflow. -/
theorem AllocateIP_stale_pointer_never_returns (fuel : Nat) :
    NewIPAM smallConf (NewStore (.json staleDoc)) = .ok (smallIPAM staleDoc) ∧
      (∀ e ∈ staleDoc.IPs, e.2.ID ≠ "c3") ∧
      (smallIPAM staleDoc).subnet.Contains (ipv4 10 244 0 5) = false ∧
      (smallIPAM staleDoc).AllocateIP fuel "c3" "eth0" = none :=
  ⟨rfl, by decide, by decide,
    AllocateIP_diverges_of_stale_pointer smallConf (NewStore (.json staleDoc))
      (smallIPAM staleDoc) staleDoc "c3" "eth0" (ipv4 10 244 0 5) fuel rfl rfl
      (smallIPAM_full _) (by decide) rfl (by decide) (by decide)⟩

/-! ## Repeated allocation -/

/-- C3: `AllocateIP` is idempotent per containerID. On every data file reached
from the empty document by `AllocateIP` and `ReleaseIP` calls, if
`AllocateIP(id, ifName)` succeeds with address `a`, the `AllocateIP` that
follows for the same containerID, with any interface name, any fuel and the
records ranged over in any order, returns `a` and leaves the records and the
last-allocated pointer as the first call left them. -/
theorem AllocateIP_idempotent (conf : CNIConf) (disk : File) (fuel fuel' : Nat)
    (im im1 im2 : IPAM) (d1 d2 : data) (id ifName ifName' : String) (a : IP)
    (hr : Reachable conf disk)
    (hnew : NewIPAM conf (NewStore disk) = .ok im)
    (h : im.AllocateIP fuel id ifName = some ((some a, none), im1))
    (h1 : im1.store.dataFile = .json d1)
    (h2 : im2.store.dataFile = .json d2)
    (hperm : List.Perm d2.IPs d1.IPs) (hlast : d2.Last = d1.Last) :
    im2.AllocateIP fuel' id ifName' = some ((some a, none), loaded im2 d2) ∧
      (loaded im2 d2).store.dataFile = .json d2 ∧ List.Perm d2.IPs d1.IPs ∧
      d2.Last = d1.Last := by
  obtain ⟨d, hd, hu⟩ := Reachable_unique conf disk hr
  obtain ⟨hs, -, -, -⟩ := NewIPAM_ok _ _ _ hnew
  have hload : im.store.dataFile = .json d := by rw [hs]; exact hd
  refine ⟨?_, rfl, hperm, hlast⟩
  exact AllocateIP_repeat_of_unique fuel fuel' im im1 im2 d d1 d2 id ifName ifName' a hload
    (fun e he e' he' hid hid' => List.inj_on_of_nodup_map hu he he' (hid.trans hid'.symm))
    h h1 h2 hperm hlast

/-- An instance of `AllocateIP_idempotent`: on the file the first allocation
left, `c2` is given `10.244.1.3`, and is given it again by the next call. -/
theorem AllocateIP_idempotent_witness :
    (sampleIPAM sampleDoc1).AllocateIP 1 "c2" "eth0" =
        some ((some (ipv4 10 244 1 3), none), loaded (sampleIPAM sampleDoc1) sampleDoc2) ∧
      (sampleIPAM sampleDoc2).AllocateIP 0 "c2" "net1" =
        some ((some (ipv4 10 244 1 3), none), loaded (sampleIPAM sampleDoc2) sampleDoc2) :=
  ⟨by decide,
    (AllocateIP_idempotent sampleConf (.json sampleDoc1) 1 0 (sampleIPAM sampleDoc1)
      (loaded (sampleIPAM sampleDoc1) sampleDoc2) (sampleIPAM sampleDoc2) sampleDoc2 sampleDoc2
      "c2" "eth0" "net1" (ipv4 10 244 1 3)
      (@Reachable.allocate sampleConf (.json { IPs := [], Last := none })
        (sampleIPAM { IPs := [], Last := none })
        (loaded (sampleIPAM { IPs := [], Last := none }) sampleDoc1)
        1 "c1" "eth0" (some (ipv4 10 244 1 2), none)
        Reachable.init rfl (by decide))
      rfl (by decide) rfl rfl (List.Perm.refl _) rfl).1⟩

end SimpleCNI
